import Mathlib

/-!
Shallow embedding of `数据集格式调整器.py`: the batch image resize/save pipeline
(`ProcessAndSaveTask.run` with its inner `process_file`), the archive task
(`CompressTask.run`), and the manifest generator
(`DatasetFormatAdjuster.generate_lst`).
-/

namespace DatasetTool

/-- Decoded in-memory image (`PIL.Image`): dimensions plus an abstract pixel payload. -/
structure PILImage where
  width : Nat
  height : Nat
  pix : Nat
deriving DecidableEq

/-- Model of `img.resize((width, height), RESAMPLE_METHOD)`: the result has exactly
the requested dimensions; the payload carries over (resampling is abstracted). -/
def PILImage.resize (img : PILImage) (w h : Nat) : PILImage :=
  { width := w, height := h, pix := img.pix }

/-- Model of `os.path.basename` (POSIX): the part after the last slash. -/
def basename (p : String) : String :=
  String.mk ((p.toList.reverse.takeWhile (fun c => c != '/')).reverse)

/-- Index of the last '.' in a character list, if any (mirrors `str.rfind('.')`). -/
def lastDotIdx (cs : List Char) : Option Nat :=
  if '.' ∈ cs then some (cs.length - 1 - cs.reverse.indexOf '.') else none

/-- Model of `os.path.splitext(name)[0]` for a name without separators: cut at the
last dot, except when every character before that dot is itself a dot (hidden
files such as `.bashrc` keep their full name). -/
def splitextRoot (name : String) : String :=
  let cs := name.toList
  match lastDotIdx cs with
  | none => name
  | some d => if (cs.take d).any (fun c => c != '.') then String.mk (cs.take d) else name

/-- Model of `os.path.join(a, b)` (POSIX, two components): `b` wins when
absolute; a separator is inserted unless `a` is empty or already ends in one. -/
def joinPath (a b : String) : String :=
  if b.toList.head? = some '/' then b
  else if a = "" ∨ a.toList.getLast? = some '/' then a ++ b
  else a ++ "/" ++ b

/-- Parameters a `ProcessAndSaveTask` is constructed with (the file list is passed
separately here). Width and height are the parsed integers from the UI. -/
structure Params where
  target_folder : String
  width : Nat
  height : Nat
  out_format : String
deriving DecidableEq

deriving instance DecidableEq for Except

/-- One source file of a job together with the outcome of the filesystem/codec
interactions on it: `image` is what `Image.open` yields (`Except.error` holds the
exception text when the file is unreadable or undecodable); `saveError` holds the
exception text when `img.save` fails (encode/write failure). -/
structure SourceFile where
  path : String
  image : Except String PILImage
  saveError : Option String
deriving DecidableEq

/-- Result of `process_file` on one item: either the written output (path and
image) with return value `True`, or the text emitted on the `message` signal with
return value `False`. -/
inductive ItemResult where
  | ok (outPath : String) (img : PILImage)
  | failed (msg : String)
deriving DecidableEq

/-- Output path `os.path.join(self.target_folder, base_name + "." + out_format)`. -/
def outPathOf (p : Params) (filePath : String) : String :=
  joinPath p.target_folder (splitextRoot (basename filePath) ++ "." ++ p.out_format)

/-- Model of the inner `process_file` closure: any exception while opening,
resizing or saving is caught, emits one message naming the path and the error and
returns `False`; otherwise the resized image is written to the derived output
path and the call returns `True`. -/
def processFile (p : Params) (f : SourceFile) : ItemResult :=
  match f.image with
  | .error e => .failed ("处理失败：" ++ f.path ++ ", 错误: " ++ e)
  | .ok img =>
    match f.saveError with
    | some e => .failed ("处理失败：" ++ f.path ++ ", 错误: " ++ e)
    | none => .ok (outPathOf p f.path) (img.resize p.width p.height)

/-- Events observable on the task's `WorkerSignals` (the elapsed-seconds float of
`progress` and the timing text inside messages are omitted: wall-clock time is
outside the model). -/
inductive Event where
  | progress (current total : Nat)
  | message (text : String)
  | finished (successes total : Nat)
deriving DecidableEq

/-- Whether `process_file` returns `True` for this item. -/
def itemSuccess (p : Params) (f : SourceFile) : Bool :=
  match processFile p f with
  | .ok _ _ => true
  | .failed _ => false

/-- The `message` signals an item emits: exactly one on failure, none on success. -/
def itemMessages (p : Params) (f : SourceFile) : List Event :=
  match processFile p f with
  | .ok _ _ => []
  | .failed m => [.message m]

/-- Final value of the `count` accumulator of `run`: one increment per item whose
`process_file` returned `True`. -/
def successCount (p : Params) (files : List SourceFile) : Nat :=
  (files.filter (itemSuccess p)).length

/-- A possible sequence of `done_count` scans observed by the `as_completed` loop:
one scan per item; at the k-th scan (0-based) the k+1 futures already yielded by
`as_completed` are done, so the scan counts at least k+1 and at most all futures;
the set of done futures only grows over time, so consecutive scans are
non-decreasing. Every such sequence is realised by some thread timing. -/
def ValidSched (done : List Nat) (total : Nat) : Prop :=
  done.length = total ∧ done.Chain' (· ≤ ·) ∧
    ∀ k, k < done.length → k + 1 ≤ done.getD k 0 ∧ done.getD k 0 ≤ total

/-- Trace of signals emitted by `ProcessAndSaveTask.run` under one timing: `order`
is the completion order of the futures (a permutation of the file list), `done`
the per-iteration `done_count` scans; each iteration of the `as_completed` loop
emits one `progress`, an item's failure message (emitted from its worker thread)
is placed at its completion, and one `finished` follows the loop. -/
def runTrace (p : Params) (files order : List SourceFile) (done : List Nat) :
    List Event :=
  (order.zip done).flatMap
      (fun fd => itemMessages p fd.1 ++ [Event.progress fd.2 files.length])
    ++ [Event.finished (successCount p order) files.length]

/-- The sequence of `current` values carried by the `progress` events of a trace. -/
def progressCounts (tr : List Event) : List Nat :=
  tr.filterMap (fun e => match e with
    | .progress c _ => some c
    | _ => none)

/-- Recogniser for `message` events. -/
def isMessage : Event → Bool
  | .message _ => true
  | _ => false

/-- Recogniser for `finished` events. -/
def isFinished : Event → Bool
  | .finished _ _ => true
  | _ => false

/-- Model of `CompressTask.run`: `result` is what `shutil.make_archive` yields (the
archive path, or the exception text); `elapsedText` is the formatted elapsed time
interpolated into the success message. -/
def compressRun (elapsedText : String) (result : Except String String) : List Event :=
  match result with
  | .ok archivePath =>
      [Event.message ("压缩完成：" ++ archivePath ++ " 耗时 " ++ elapsedText ++ "s"),
       Event.finished 1 1]
  | .error e => [Event.message ("压缩失败: " ++ e)]

/-- Destination-directory contents, newest write first; reading takes the first
binding for a path. -/
abbrev FileStore := List (String × PILImage)

/-- Model of `img.save(out_path, ...)`: the new content shadows whatever was at
`out_path` before. -/
def writeFile (fs : FileStore) (path : String) (img : PILImage) : FileStore :=
  (path, img) :: fs

/-- Content currently stored at `path`. -/
def readFile (fs : FileStore) (path : String) : Option PILImage :=
  (fs.find? (fun e => e.1 == path)).map (·.2)

/-- Effect of one completed item on the destination directory. -/
def applyResult (fs : FileStore) (r : ItemResult) : FileStore :=
  match r with
  | .ok pth img => writeFile fs pth img
  | .failed _ => fs

/-- Model of `str.replace("\\", "/")`. -/
def replaceBackslash (s : String) : String :=
  String.mk (s.toList.map (fun c => if c = '\\' then '/' else c))

/-- One line written for a pair of the zipped sorted listings. -/
def lstLine (imgName annName : String) : String :=
  replaceBackslash ("images/" ++ imgName) ++ " " ++
    replaceBackslash ("annotations/" ++ annName) ++ "\n"

/-- Lexicographic `≤` on character lists, comparing code points — the order
Python uses to compare strings. -/
def lexLe : List Char → List Char → Bool
  | [], _ => true
  | _ :: _, [] => false
  | a :: as, b :: bs => if a = b then lexLe as bs else decide (a < b)

/-- Propositional form of the Python string order. -/
abbrev strLe (a b : String) : Prop := lexLe a.toList b.toList = true

/-- Python `sorted` on an `os.listdir` result: ascending lexicographic by code
point. Strings are linearly ordered by `strLe`, so any sorting algorithm yields
the same list; insertion sort keeps the definition structurally recursive. -/
def sortedListing (l : List String) : List String :=
  l.insertionSort strLe

/-- Content written to `lst/lst.txt` by `DatasetFormatAdjuster.generate_lst`, given
the listings of `images/` and `annotations/`: the loop appends one line per pair
of the zipped sorted listings. -/
def generate_lst (imageFiles annotationFiles : List String) : String :=
  ((sortedListing imageFiles).zip (sortedListing annotationFiles)).foldl
    (fun acc pr => acc ++ lstLine pr.1 pr.2) ""

/-- Number of newline characters in a string. -/
def countLines (s : String) : Nat :=
  s.toList.count '\n'

/-- The saved output image of an item result, when there is one. -/
def savedImage : ItemResult → Option PILImage
  | .ok _ img => some img
  | .failed _ => none

/-! Helper lemmas about the pipeline trace. -/

lemma progressCounts_append (xs ys : List Event) :
    progressCounts (xs ++ ys) = progressCounts xs ++ progressCounts ys :=
  List.filterMap_append xs ys _

lemma progressCounts_itemMessages (p : Params) (f : SourceFile) :
    progressCounts (itemMessages p f) = [] := by
  cases h : processFile p f <;> simp [itemMessages, h, progressCounts]

lemma progressCounts_steps (p : Params) (N : Nat) (l : List (SourceFile × Nat)) :
    progressCounts
        (l.flatMap (fun fd => itemMessages p fd.1 ++ [Event.progress fd.2 N]))
      = l.map Prod.snd := by
  induction l with
  | nil => simp [progressCounts]
  | cons a l ih =>
    rw [List.flatMap_cons, progressCounts_append, progressCounts_append,
      progressCounts_itemMessages, ih]
    simp [progressCounts]

lemma progressCounts_runTrace (p : Params) (files order : List SourceFile)
    (done : List Nat) (hlen : done.length ≤ order.length) :
    progressCounts (runTrace p files order done) = done := by
  unfold runTrace
  rw [progressCounts_append, progressCounts_steps]
  simp [progressCounts, List.map_snd_zip _ _ hlen]

lemma filter_isMessage_itemMessages (p : Params) (f : SourceFile) :
    (itemMessages p f).filter isMessage = itemMessages p f := by
  cases h : processFile p f <;> simp [itemMessages, h, isMessage]

lemma messages_steps (p : Params) (N : Nat) (l : List (SourceFile × Nat)) :
    (l.flatMap (fun fd => itemMessages p fd.1 ++ [Event.progress fd.2 N])).filter
        isMessage
      = l.flatMap (fun fd => itemMessages p fd.1) := by
  induction l with
  | nil => simp
  | cons a l ih =>
    rw [List.flatMap_cons, List.flatMap_cons, List.filter_append, List.filter_append,
      filter_isMessage_itemMessages, ih]
    simp [isMessage]

lemma messages_zip (p : Params) (order : List SourceFile) (done : List Nat)
    (h : order.length ≤ done.length) :
    (order.zip done).flatMap (fun fd => itemMessages p fd.1)
      = order.flatMap (itemMessages p) := by
  induction order generalizing done with
  | nil => simp
  | cons a l ih =>
    cases done with
    | nil => simp at h
    | cons d ds =>
      rw [List.zip_cons_cons, List.flatMap_cons, List.flatMap_cons,
        ih ds (by simpa using h)]

lemma messages_runTrace (p : Params) (files order : List SourceFile)
    (done : List Nat) (h : order.length ≤ done.length) :
    (runTrace p files order done).filter isMessage
      = order.flatMap (itemMessages p) := by
  unfold runTrace
  rw [List.filter_append, messages_steps, messages_zip p order done h]
  simp [isMessage]

lemma length_flatMap_itemMessages (p : Params) (l : List SourceFile) :
    (l.flatMap (itemMessages p)).length
      = (l.filter (fun f => !(itemSuccess p f))).length := by
  induction l with
  | nil => rfl
  | cons a l ih =>
    cases h : processFile p a <;>
      simp [List.flatMap_cons, itemMessages, h, itemSuccess, List.filter_cons, ih]

lemma filter_isFinished_itemMessages (p : Params) (f : SourceFile) :
    (itemMessages p f).filter isFinished = [] := by
  cases h : processFile p f <;> simp [itemMessages, h, isFinished]

lemma finished_steps (p : Params) (N : Nat) (l : List (SourceFile × Nat)) :
    (l.flatMap (fun fd => itemMessages p fd.1 ++ [Event.progress fd.2 N])).filter
        isFinished
      = [] := by
  induction l with
  | nil => simp
  | cons a l ih =>
    rw [List.flatMap_cons, List.filter_append, List.filter_append,
      filter_isFinished_itemMessages, ih]
    simp [isFinished]

lemma finished_runTrace (p : Params) (files order : List SourceFile)
    (done : List Nat) :
    (runTrace p files order done).filter isFinished
      = [Event.finished (successCount p order) files.length] := by
  unfold runTrace
  rw [List.filter_append, finished_steps]
  simp [isFinished]

lemma getLast_runTrace (p : Params) (files order : List SourceFile)
    (done : List Nat) :
    (runTrace p files order done).getLast?
      = some (Event.finished (successCount p order) files.length) := by
  unfold runTrace
  exact List.getLast?_concat _

lemma successCount_le (p : Params) (l : List SourceFile) :
    successCount p l ≤ l.length :=
  List.length_filter_le _ _

lemma successCount_perm (p : Params) {l₁ l₂ : List SourceFile} (h : l₁.Perm l₂) :
    successCount p l₁ = successCount p l₂ :=
  (h.filter _).length_eq

/-! Concrete fixtures for witnesses and counterexamples. -/

/-- A readable, decodable source file whose save succeeds. -/
def okFile (name : String) : SourceFile :=
  { path := name, image := .ok ⟨640, 480, 7⟩, saveError := none }

/-- A source file whose `Image.open` raises with the given error text. -/
def badFile (name err : String) : SourceFile :=
  { path := name, image := .error err, saveError := none }

/-- A source file that decodes fine but whose `img.save` raises (encode/write
failure) with the given error text. -/
def saveFailFile (name err : String) : SourceFile :=
  { path := name, image := .ok ⟨640, 480, 7⟩, saveError := some err }

/-- A small concrete job parameter set. -/
def exampleParams : Params :=
  { target_folder := "dest", width := 100, height := 50, out_format := "png" }

/-! Claim theorems. -/

/-- C2: once every item has produced its outcome, the run emits exactly one
`finished` signal carrying the success count and the total item count, and that
signal is the last event of the trace — no progress, message or summary event
follows it. -/
theorem C2_single_summary (p : Params) (files order : List SourceFile)
    (done : List Nat) (ho : order.Perm files) :
    (runTrace p files order done).filter isFinished
        = [Event.finished (successCount p files) files.length] ∧
    (runTrace p files order done).getLast?
        = some (Event.finished (successCount p files) files.length) := by
  rw [finished_runTrace, getLast_runTrace, successCount_perm p ho]
  exact ⟨rfl, rfl⟩

theorem C2_single_summary_witness :
    (runTrace exampleParams [okFile "a.png", badFile "b.png" "oops"]
          [badFile "b.png" "oops", okFile "a.png"] [1, 2]).filter isFinished
        = [Event.finished 1 2] ∧
    (runTrace exampleParams [okFile "a.png", badFile "b.png" "oops"]
          [badFile "b.png" "oops", okFile "a.png"] [1, 2]).getLast?
        = some (Event.finished 1 2) := by
  have h := C2_single_summary exampleParams
      [okFile "a.png", badFile "b.png" "oops"]
      [badFile "b.png" "oops", okFile "a.png"] [1, 2] (by decide)
  exact ⟨h.1.trans (by decide), h.2.trans (by decide)⟩

/-- C4: for an empty file list the `as_completed` loop never runs, so no
progress event is ever emitted and the whole trace is the single summary
`finished (0, 0)`. -/
theorem C4_empty_job (p : Params) (order : List SourceFile) (done : List Nat)
    (ho : order.Perm []) (hs : ValidSched done 0) :
    runTrace p [] order done = [Event.finished 0 0] ∧
    progressCounts (runTrace p [] order done) = [] := by
  have h1 : order = [] := ho.eq_nil
  have h2 : done = [] := List.length_eq_zero.mp hs.1
  subst h1 h2
  exact ⟨rfl, rfl⟩

theorem C4_empty_job_witness :
    runTrace exampleParams [] [] [] = [Event.finished 0 0] ∧
    progressCounts (runTrace exampleParams [] [] []) = [] :=
  C4_empty_job exampleParams [] [] (List.Perm.refl [])
    (by unfold ValidSched; exact ⟨rfl, List.chain'_nil, fun k hk => by simp at hk⟩)

/-- C7: every emitted summary satisfies successes ≤ total, and for a job where
every item succeeds the summary carries successes = total = length of the file
list. -/
theorem C7_summary_invariant (p : Params) (files order : List SourceFile)
    (done : List Nat) (ho : order.Perm files) :
    successCount p files ≤ files.length ∧
    (runTrace p files order done).getLast?
        = some (Event.finished (successCount p files) files.length) ∧
    ((∀ f ∈ files, itemSuccess p f = true) →
        successCount p files = files.length) := by
  refine ⟨successCount_le p files, ?_, ?_⟩
  · rw [getLast_runTrace, successCount_perm p ho]
  · intro h
    unfold successCount
    rw [List.filter_eq_self.mpr h]

theorem C7_summary_invariant_witness :
    successCount exampleParams [okFile "a.png", okFile "b.jpg"] = 2 ∧
    (runTrace exampleParams [okFile "a.png", okFile "b.jpg"]
        [okFile "b.jpg", okFile "a.png"] [1, 2]).getLast?
      = some (Event.finished 2 2) := by
  have h := C7_summary_invariant exampleParams [okFile "a.png", okFile "b.jpg"]
      [okFile "b.jpg", okFile "a.png"] [1, 2] (by decide)
  exact ⟨(h.2.2 (by decide)).trans (by decide), h.2.1.trans (by decide)⟩

/-- C1 (amended): for a job with N items, under every thread timing the run
emits exactly N progress events, their completed counts are monotonically
non-decreasing, the k-th scan (0-based) reports between k+1 and N completed
items, and the final scan reports exactly N; however, since the completed count
is recomputed by scanning `f.done()` over all futures, a count may repeat (and
intermediate counts be skipped) when several items finish between two scans, so
N can be observed more than once. -/
theorem C1_progress_monotone (p : Params) (files order : List SourceFile)
    (done : List Nat) (ho : order.Perm files)
    (hs : ValidSched done files.length) :
    progressCounts (runTrace p files order done) = done ∧
    done.length = files.length ∧
    done.Chain' (· ≤ ·) ∧
    (∀ k, k < done.length →
        k + 1 ≤ done.getD k 0 ∧ done.getD k 0 ≤ files.length) ∧
    (files ≠ [] → done.getLast? = some files.length) := by
  obtain ⟨hlen, hchain, hbound⟩ := hs
  have horder : order.length = files.length := ho.length_eq
  refine ⟨progressCounts_runTrace p files order done (by omega), hlen, hchain,
    hbound, ?_⟩
  intro hne
  have hn : 0 < done.length := by
    rw [hlen]
    exact List.length_pos.mpr hne
  have hb := hbound (done.length - 1) (by omega)
  have hv : done.getD (done.length - 1) 0 = files.length := by omega
  rw [List.getLast?_eq_getElem?,
    List.getElem?_eq_getElem (by omega : done.length - 1 < done.length),
    ← List.getD_eq_getElem done 0 (by omega : done.length - 1 < done.length), hv]

theorem C1_progress_monotone_witness :
    progressCounts
        (runTrace exampleParams [okFile "a.png"] [okFile "a.png"] [1]) = [1] :=
  (C1_progress_monotone exampleParams [okFile "a.png"] [okFile "a.png"] [1]
    (List.Perm.refl _)
    (by exact ⟨rfl, List.chain'_singleton 1, by decide⟩)).1

/-- C1 counterexample: with two items that both finish before the loop's first
`f.done()` scan, a valid timing yields the observed progress counts [2, 2] —
count 1 is skipped, count 2 is duplicated, and the completed count reaches the
total 2 twice — refuting the claim that the counts are free of duplicates and
skips and reach N exactly once. -/
theorem C1_counterexample :
    ValidSched [2, 2] ([okFile "a.png", okFile "b.jpg"] : List SourceFile).length ∧
    progressCounts (runTrace exampleParams [okFile "a.png", okFile "b.jpg"]
        [okFile "a.png", okFile "b.jpg"] [2, 2]) = [2, 2] ∧
    (progressCounts (runTrace exampleParams [okFile "a.png", okFile "b.jpg"]
        [okFile "a.png", okFile "b.jpg"] [2, 2])).count 2 = 2 ∧
    progressCounts (runTrace exampleParams [okFile "a.png", okFile "b.jpg"]
        [okFile "a.png", okFile "b.jpg"] [2, 2]) ≠ [1, 2] := by
  refine ⟨?_, by decide, by decide, by decide⟩
  unfold ValidSched
  refine ⟨rfl, ?_, by decide⟩
  simp [List.chain'_cons, List.chain'_singleton]

/-- C3: an item whose processing raises — whether `Image.open` fails (unreadable
or undecodable file) or `img.save` fails (encode/write failure) — produces
exactly one message event whose text carries the source path and the error text,
returns `False` so the item is counted as a non-success, does not stop the other
items (the trace holds one message per failing item and still ends in the
summary), and the summary's total is still the length of the input file list. -/
theorem C3_item_failure (p : Params) (files order : List SourceFile)
    (done : List Nat) (f : SourceFile) (e : String)
    (ho : order.Perm files) (hlen : order.length ≤ done.length)
    (hf : f ∈ files)
    (he : f.image = Except.error e ∨
      ((∃ img, f.image = Except.ok img) ∧ f.saveError = some e)) :
    itemMessages p f
        = [Event.message ("处理失败：" ++ f.path ++ ", 错误: " ++ e)] ∧
    Event.message ("处理失败：" ++ f.path ++ ", 错误: " ++ e)
        ∈ runTrace p files order done ∧
    itemSuccess p f = false ∧
    ((runTrace p files order done).filter isMessage).length
        = (files.filter (fun g => !(itemSuccess p g))).length ∧
    successCount p files < files.length ∧
    (runTrace p files order done).getLast?
        = some (Event.finished (successCount p files) files.length) := by
  have hmsg : itemMessages p f
      = [Event.message ("处理失败：" ++ f.path ++ ", 错误: " ++ e)] := by
    rcases he with he | ⟨⟨img, hok⟩, hsv⟩
    · simp [itemMessages, processFile, he]
    · simp [itemMessages, processFile, hok, hsv]
  have hfail : itemSuccess p f = false := by
    rcases he with he | ⟨⟨img, hok⟩, hsv⟩
    · simp [itemSuccess, processFile, he]
    · simp [itemSuccess, processFile, hok, hsv]
  have hfo : f ∈ order := ho.mem_iff.mpr hf
  have hmem : Event.message ("处理失败：" ++ f.path ++ ", 错误: " ++ e)
      ∈ runTrace p files order done := by
    apply List.mem_of_mem_filter (p := isMessage)
    rw [messages_runTrace p files order done hlen]
    exact List.mem_flatMap.mpr ⟨f, hfo, by simp [hmsg]⟩
  refine ⟨hmsg, hmem, hfail, ?_, ?_, ?_⟩
  · rw [messages_runTrace p files order done hlen,
      length_flatMap_itemMessages p order]
    exact (ho.filter _).length_eq
  · have hsplit := List.length_eq_length_filter_add (l := files) (itemSuccess p)
    have hpos : 0 < (files.filter (fun g => !(itemSuccess p g))).length := by
      apply List.length_pos.mpr
      intro hnil
      have : f ∈ files.filter (fun g => !(itemSuccess p g)) :=
        List.mem_filter.mpr ⟨hf, by rw [hfail]; rfl⟩
      rw [hnil] at this
      exact List.not_mem_nil f this
    unfold successCount
    omega
  · rw [getLast_runTrace, successCount_perm p ho]

theorem C3_item_failure_witness :
    (itemSuccess exampleParams (badFile "b.png" "oops") = false ∧
      successCount exampleParams [okFile "a.png", badFile "b.png" "oops"] < 2) ∧
    (itemSuccess exampleParams (saveFailFile "c.png" "disk full") = false ∧
      itemMessages exampleParams (saveFailFile "c.png" "disk full")
        = [Event.message "处理失败：c.png, 错误: disk full"] ∧
      successCount exampleParams
          [okFile "a.png", saveFailFile "c.png" "disk full"] < 2) := by
  have h1 := C3_item_failure exampleParams
      [okFile "a.png", badFile "b.png" "oops"]
      [badFile "b.png" "oops", okFile "a.png"] [1, 2]
      (badFile "b.png" "oops") "oops" (by decide) (by decide) (by decide)
      (Or.inl rfl)
  have h2 := C3_item_failure exampleParams
      [okFile "a.png", saveFailFile "c.png" "disk full"]
      [saveFailFile "c.png" "disk full", okFile "a.png"] [1, 2]
      (saveFailFile "c.png" "disk full") "disk full" (by decide) (by decide)
      (by decide) (Or.inr ⟨⟨⟨640, 480, 7⟩, rfl⟩, rfl⟩)
  exact ⟨⟨h1.2.2.1, h1.2.2.2.2.1⟩,
    ⟨h2.2.2.1, h2.1.trans (by decide), h2.2.2.2.2.1⟩⟩

/-- C5: a successfully processed item is written to
`target_folder/<base name>.<out_format>` where the base name is the source's
file name with its extension removed; the output path depends only on the
source's base name (given the job's folder and format), and a later write to the
same path shadows the earlier one — last write wins. -/
theorem C5_output_path (p : Params) (f : SourceFile) (img : PILImage)
    (hi : f.image = Except.ok img) (hsv : f.saveError = none) :
    processFile p f
        = ItemResult.ok (outPathOf p f.path) (img.resize p.width p.height) ∧
    outPathOf p f.path
        = joinPath p.target_folder
            (splitextRoot (basename f.path) ++ "." ++ p.out_format) ∧
    (∀ g : String, splitextRoot (basename g) = splitextRoot (basename f.path) →
        outPathOf p g = outPathOf p f.path) ∧
    (∀ (fs : FileStore) (prev now : PILImage),
        readFile (writeFile (writeFile fs (outPathOf p f.path) prev)
            (outPathOf p f.path) now) (outPathOf p f.path) = some now) := by
  refine ⟨by simp [processFile, hi, hsv], rfl, ?_, ?_⟩
  · intro g hg
    unfold outPathOf
    rw [hg]
  · intro fs prev now
    simp [readFile, writeFile]

theorem C5_output_path_witness :
    processFile exampleParams (okFile "/data/imgs/photo.final.jpeg")
      = ItemResult.ok "dest/photo.final.png" (PILImage.mk 100 50 7) := by
  have h := C5_output_path exampleParams (okFile "/data/imgs/photo.final.jpeg")
      (PILImage.mk 640 480 7) rfl rfl
  exact h.1.trans (by decide)

/-- C6: whatever the source image's dimensions, a saved output image has exactly
the requested target dimensions — the resize stretches or squashes to
(width, height) and never preserves the source aspect ratio. -/
theorem C6_resize_exact (p : Params) (f : SourceFile) (img2 : PILImage)
    (h : savedImage (processFile p f) = some img2) :
    img2.width = p.width ∧ img2.height = p.height := by
  unfold processFile at h
  cases hi : f.image with
  | error e =>
    rw [hi] at h
    simp [savedImage] at h
  | ok img =>
    rw [hi] at h
    cases hsv : f.saveError with
    | some e =>
      rw [hsv] at h
      simp [savedImage] at h
    | none =>
      rw [hsv] at h
      simp only [savedImage, Option.some.injEq] at h
      rw [← h]
      exact ⟨rfl, rfl⟩

theorem C6_resize_exact_witness :
    (PILImage.mk 100 50 7).width = exampleParams.width ∧
    (PILImage.mk 100 50 7).height = exampleParams.height :=
  C6_resize_exact exampleParams (okFile "wide_panorama.bmp")
    (PILImage.mk 100 50 7) (by decide)

/-- C9: when archive creation raises, `CompressTask.run` emits exactly one
message event (carrying the error text) and nothing else: no progress event and
no `finished` summary ever follow, so a caller cannot rely on a summary being
emitted after a job-level failure. -/
theorem C9_job_level_failure (elapsedText e : String) :
    compressRun elapsedText (Except.error e)
        = [Event.message ("压缩失败: " ++ e)] ∧
    (compressRun elapsedText (Except.error e)).filter isFinished = [] ∧
    progressCounts (compressRun elapsedText (Except.error e)) = [] :=
  ⟨rfl, rfl, rfl⟩

/-! Helper lemmas about the manifest generator. -/

lemma toList_append (a b : String) : (a ++ b).toList = a.toList ++ b.toList :=
  String.data_append a b

lemma mk_toList (s : String) : String.mk s.toList = s := by
  cases s
  rfl

lemma foldl_append_hoist (l : List String) (a : String) :
    l.foldl (fun r s => r ++ s) a = a ++ l.foldl (fun r s => r ++ s) "" := by
  induction l generalizing a with
  | nil => simp
  | cons b l ih =>
    rw [List.foldl_cons, List.foldl_cons, ih (a ++ b), ih ("" ++ b)]
    simp [String.append_assoc]

lemma join_cons (a : String) (l : List String) :
    String.join (a :: l) = a ++ String.join l := by
  simp [String.join, List.foldl_cons]
  rw [foldl_append_hoist]

lemma foldl_lstLine (l : List (String × String)) (acc : String) :
    l.foldl (fun a pr => a ++ lstLine pr.1 pr.2) acc
      = acc ++ String.join (l.map (fun pr => lstLine pr.1 pr.2)) := by
  induction l generalizing acc with
  | nil => simp [String.join]
  | cons b l ih =>
    rw [List.foldl_cons, ih, List.map_cons, join_cons, String.append_assoc]

lemma generate_lst_eq_join (imgs anns : List String) :
    generate_lst imgs anns
      = String.join (((sortedListing imgs).zip (sortedListing anns)).map
          (fun pr => lstLine pr.1 pr.2)) := by
  unfold generate_lst
  rw [foldl_lstLine]
  simp

lemma replaceBackslash_id (s : String) (h : '\\' ∉ s.toList) :
    replaceBackslash s = s := by
  unfold replaceBackslash
  have hmap : s.toList.map (fun c => if c = '\\' then '/' else c)
      = s.toList := by
    have h1 : s.toList.map (fun c => if c = '\\' then '/' else c)
        = s.toList.map id := by
      apply List.map_congr_left
      intro a ha
      have : a ≠ '\\' := fun hc => h (hc ▸ ha)
      simp [this]
    rw [h1, List.map_id]
  rw [hmap, mk_toList]

lemma not_mem_toList_append {c : Char} {a b : String} (ha : c ∉ a.toList)
    (hb : c ∉ b.toList) : c ∉ (a ++ b).toList := by
  rw [toList_append]
  intro hmem
  rcases List.mem_append.mp hmem with h | h
  · exact ha h
  · exact hb h

lemma countLines_append (a b : String) :
    countLines (a ++ b) = countLines a + countLines b := by
  unfold countLines
  rw [toList_append, List.count_append]

lemma countLines_replaceBackslash (s : String) :
    countLines (replaceBackslash s) = countLines s := by
  unfold countLines replaceBackslash
  show (s.toList.map (fun c => if c = '\\' then '/' else c)).count '\n'
      = s.toList.count '\n'
  induction s.toList with
  | nil => rfl
  | cons c cs ih =>
    simp only [List.map_cons, List.count_cons, ih]
    by_cases hc : c = '\\'
    · subst hc
      simp
    · simp [hc]

lemma countLines_join (l : List String) :
    countLines (String.join l) = (l.map countLines).sum := by
  induction l with
  | nil => rfl
  | cons a l ih =>
    rw [join_cons, countLines_append, List.map_cons, List.sum_cons, ih]

lemma countLines_lstLine (i a : String) (hi : '\n' ∉ i.toList)
    (ha : '\n' ∉ a.toList) :
    countLines (lstLine i a) = 1 := by
  have h1 : countLines ("images/" ++ i) = 0 := by
    rw [countLines_append, (by decide : countLines "images/" = 0)]
    unfold countLines
    rw [List.count_eq_zero.mpr hi]
  have h2 : countLines ("annotations/" ++ a) = 0 := by
    rw [countLines_append, (by decide : countLines "annotations/" = 0)]
    unfold countLines
    rw [List.count_eq_zero.mpr ha]
  unfold lstLine
  rw [countLines_append, countLines_append, countLines_append,
    countLines_replaceBackslash, countLines_replaceBackslash, h1, h2]
  decide

lemma sum_ones (l : List Nat) (h : ∀ x ∈ l, x = 1) : l.sum = l.length := by
  induction l with
  | nil => rfl
  | cons a l ih =>
    rw [List.sum_cons, List.length_cons, h a (List.mem_cons_self a l),
      ih (fun x hx => h x (List.mem_cons_of_mem a hx))]
    omega

/-- C8: the manifest content is exactly one line per pair of the positionally
zipped sorted listings (not matched by name); for backslash-free names each line
is literally `images/<name> annotations/<name>`, and on the spec's example the
file holds exactly the two positionally paired lines. -/
theorem C8_manifest_positional :
    (∀ imgs anns : List String,
        generate_lst imgs anns
          = String.join (((sortedListing imgs).zip (sortedListing anns)).map
              (fun pr => lstLine pr.1 pr.2))) ∧
    (∀ i a : String, '\\' ∉ i.toList → '\\' ∉ a.toList →
        lstLine i a = "images/" ++ i ++ " annotations/" ++ a ++ "\n") ∧
    generate_lst ["a.png", "b.png"] ["m.png", "n.png"]
      = "images/a.png annotations/m.png\nimages/b.png annotations/n.png\n" := by
  refine ⟨generate_lst_eq_join, ?_, by decide⟩
  intro i a hi ha
  unfold lstLine
  rw [replaceBackslash_id ("images/" ++ i)
      (not_mem_toList_append (by decide) hi),
    replaceBackslash_id ("annotations/" ++ a)
      (not_mem_toList_append (by decide) ha)]
  simp only [String.append_assoc]
  rw [← String.append_assoc " " "annotations/" (a ++ "\n"),
    (by decide : (" " : String) ++ "annotations/" = " annotations/")]

theorem C8_manifest_positional_witness :
    lstLine "a.png" "m.png" = "images/a.png annotations/m.png\n" :=
  (C8_manifest_positional.2.1 "a.png" "m.png" (by decide) (by decide)).trans
    (by decide)

/-- C10: when the two listings differ in length the manifest contains exactly
min(len(images), len(annotations)) lines: the `zip` silently drops every
trailing entry of the longer sorted listing, raising no error and writing no
line with a missing partner. -/
theorem C10_truncated_pairing (imgs anns : List String)
    (hi : ∀ s ∈ imgs, '\n' ∉ s.toList) (ha : ∀ s ∈ anns, '\n' ∉ s.toList) :
    countLines (generate_lst imgs anns) = min imgs.length anns.length := by
  rw [generate_lst_eq_join, countLines_join, List.map_map]
  have hone : ∀ x ∈ ((sortedListing imgs).zip (sortedListing anns)).map
      (countLines ∘ fun pr => lstLine pr.1 pr.2), x = 1 := by
    intro x hx
    obtain ⟨pr, hpr, rfl⟩ := List.mem_map.mp hx
    obtain ⟨h1, h2⟩ := List.of_mem_zip hpr
    exact countLines_lstLine pr.1 pr.2
      (hi pr.1 ((List.perm_insertionSort strLe imgs).mem_iff.mp h1))
      (ha pr.2 ((List.perm_insertionSort strLe anns).mem_iff.mp h2))
  rw [sum_ones _ hone, List.length_map, List.length_zip]
  unfold sortedListing
  rw [(List.perm_insertionSort strLe imgs).length_eq,
    (List.perm_insertionSort strLe anns).length_eq]

theorem C10_truncated_pairing_witness :
    countLines (generate_lst ["a.png", "b.png", "c.png"] ["m.png"]) = 1 :=
  (C10_truncated_pairing ["a.png", "b.png", "c.png"] ["m.png"]
    (by decide) (by decide)).trans (by decide)

end DatasetTool
